import Mathlib

/-!
Verification of the gedis core subsystems against their specification:
the consistent-hash ring (`lib/consistenthash/consistenthash.go`), the
AOF rewrite engine (`aof` package) and the TCC distributed-transaction
participant (`cluster` package).  Go strings are modelled as `List Char`
(one `Char` per byte), Go `uint32` values as `Nat` reduced mod 2^32,
fallible operations as `Option`.
-/

namespace Gedis

/-! ## Consistent hash ring (`consistenthash.go`) -/

/-- Model of `strings.Index(s, c)`: index of the first occurrence of `c` in `s`,
`none` standing for Go's `-1`. -/
def strIndex (s : List Char) (c : Char) : Option Nat :=
  s.findIdx? (· = c)

/-- Go string slicing `s[lo:hi]`.  Go panics when `lo > hi` or
`hi > len(s)`; a panic is modelled as `none`. -/
def goSlice (s : List Char) (lo hi : Nat) : Option (List Char) :=
  if lo ≤ hi ∧ hi ≤ s.length then some ((s.drop lo).take (hi - lo)) else none

/-- Function `getPartitionKey` as written in the source: find the first `{` in the
key; if absent return the key; find the first `}` **anywhere in the key**;
if absent, or immediately after the `{`, return the key; otherwise return
`key[beg+1:end]` (which panics, i.e. `none`, when `end < beg+1`). -/
def getPartitionKey (key : List Char) : Option (List Char) :=
  match strIndex key '{' with
  | none => some key
  | some beg =>
    match strIndex key '}' with
    | none => some key
    | some e => if e = beg + 1 then some key else goSlice key (beg + 1) e

/-- The partition-key extraction as the spec words it: the substring
strictly between the first `{` and the first `}` occurring **after** that
`{`; the full key when either brace is missing or the braces are
adjacent.  Total by construction. -/
def specPartitionKey (key : List Char) : List Char :=
  match strIndex key '{' with
  | none => key
  | some beg =>
    match strIndex (key.drop (beg + 1)) '}' with
    | none => key
    | some j => if j = 0 then key else (key.drop (beg + 1)).take j

/-- Constant 2^32, the modulus of Go's `uint32`. -/
def U32 : Nat := 4294967296

/-- The consistent-hash `Map`: a hash function (a Go `HashFunc` returns
`uint32`, hence the reduction mod `U32` at every call site), the virtual
node count, the sorted ring positions and the hash → node-address map
(association list, later bindings shadowing earlier ones, as Go map
assignment overwrites). -/
structure HMap where
  hashFunc : List Char → Nat
  replicas : Nat
  keys : List Nat
  hashMap : List (Nat × List Char)

/-- Constructor `New(replicas, fn)` (the `nil`-default to CRC32 is irrelevant here:
the claims hold for an arbitrary injected hash function). -/
def NewMap (replicas : Nat) (fn : List Char → Nat) : HMap :=
  { hashFunc := fn, replicas := replicas, keys := [], hashMap := [] }

/-- Go map read with zero-value `""` for a missing key. -/
def mapLookup (mp : List (Nat × List Char)) (k : Nat) : List Char :=
  match mp with
  | [] => []
  | (k2, v) :: rest => if k2 = k then v else mapLookup rest k

/-- Model of `strconv.Itoa` on a natural number. -/
def itoaChars (n : Nat) : List Char := (Nat.repr n).data

/-- One turn of `AddNode`'s inner loop: append the virtual-node hash
`hashFunc(itoa(i) ++ addr)` to the ring positions and record it in the
hash map. -/
def addVirtualNode (addr : List Char) (mm : HMap) (i : Nat) : HMap :=
  let hash := mm.hashFunc (itoaChars i ++ addr) % U32
  { mm with keys := mm.keys ++ [hash], hashMap := (hash, addr) :: mm.hashMap }

/-- The body of `AddNode`'s outer loop for one address: skip the empty
address, otherwise insert `replicas` virtual nodes `i ∈ [0, replicas)`. -/
def addOneNode (m : HMap) (addr : List Char) : HMap :=
  if addr = [] then m
  else (List.range m.replicas).foldl (addVirtualNode addr) m

/-- Method `AddNode(keys...)`: insert every given address, then re-sort the ring
positions ascending (`sort.Ints`). -/
def AddNode (m : HMap) (addrs : List (List Char)) : HMap :=
  let m1 := addrs.foldl addOneNode m
  { m1 with keys := List.insertionSort (· ≤ ·) m1.keys }

/-- Go's `sort.Search(n, f)`: the binary-search loop itself,
`h = (i+j)/2`, narrowing `[i, j)` until `i = j`.  The fuel argument only
drives structural recursion: the width `j - i` shrinks by at least one
per iteration, so fuel `j - i` is never exhausted. -/
def sortSearchGo (f : Nat → Bool) : Nat → Nat → Nat → Nat
  | 0, i, _ => i
  | fuel + 1, i, j =>
    if i < j then
      let h := (i + j) / 2
      if f h then sortSearchGo f fuel i h else sortSearchGo f fuel (h + 1) j
    else i

/-- Entry point of `sort.Search(n, f)`: it searches the whole interval `[0, n)`. -/
def sortSearch (f : Nat → Bool) (n : Nat) : Nat :=
  sortSearchGo f n 0 n

/-- Method `PickNode(key)`: empty ring gives `""`; otherwise hash the partition
key, binary-search the smallest ring position `≥ hash`, wrap to index 0
when past the end, and map the position to its node address.  `none`
propagates the `getPartitionKey` panic. -/
def PickNode (m : HMap) (key : List Char) : Option (List Char) :=
  if m.keys.length = 0 then some []
  else
    match getPartitionKey key with
    | none => none
    | some pk =>
      let hash := m.hashFunc pk % U32
      let idx := sortSearch (fun i => decide (hash ≤ m.keys.getD i 0)) m.keys.length
      let idx := if idx = m.keys.length then 0 else idx
      some (mapLookup m.hashMap (m.keys.getD idx 0))

/-- The third ring invariant: every ring position is a key of the
hash → node map. -/
def ringKeysMapped (m : HMap) : Prop :=
  ∀ h ∈ m.keys, ∃ v, (h, v) ∈ m.hashMap

/-- The number of non-empty addresses in an argument list, counted with
multiplicity (`AddNode` only skips the empty string, never a
duplicate). -/
def nonEmptyAddrCount : List (List Char) → Nat
  | [] => 0
  | a :: t => (if a = [] then 0 else 1) + nonEmptyAddrCount t

/-- A hash function whose virtual nodes all collide. -/
def zeroHash : List Char → Nat := fun _ => 0

/-- A hash function returning the key's last byte. -/
def lastByteHash (s : List Char) : Nat := (s.getLastD 'a').toNat

/-- A concrete two-node ring whose positions are the last bytes of
`"ax"` and `"ay"` (120 and 121). -/
def ringXY : HMap := AddNode (NewMap 1 lastByteHash) [['a', 'x'], ['a', 'y']]

/-! ## AOF engine (`aof` package)

File contents are byte lists (`List Nat`, each element < 256 in any run).
RESP serialization (`protocol.MakeMultiBulkReply(...).ToBytes()`) and the
command builders `EntityToCmd` / `MakeExpireCmd` live in parts of the
repository outside the excerpt, so they are modelled from the spec. -/

/-- Bytes of a Go string. -/
def strBytes (s : List Char) : List Nat := s.map Char.toNat

/-- CR LF. -/
def crlf : List Nat := [13, 10]

/-- Modelled from the spec: RESP bulk string `$<len>\r\n<payload>\r\n`
(one element of a "length-prefixed array-of-byte-strings" frame). -/
def respBulk (s : List Nat) : List Nat :=
  strBytes "$".data ++ strBytes (itoaChars s.length) ++ crlf ++ s ++ crlf

/-- Modelled from the spec: RESP multi-bulk frame
`*<n>\r\n` followed by each argument as a bulk string; this is
`protocol.MakeMultiBulkReply(args).ToBytes()`. -/
def respMultiBulk (args : List (List Nat)) : List Nat :=
  strBytes "*".data ++ strBytes (itoaChars args.length) ++ crlf ++ (args.map respBulk).flatten

/-- The `SELECT n` frame the rewriter emits. -/
def selectFrame (n : Nat) : List Nat :=
  respMultiBulk [strBytes "SELECT".data, strBytes (itoaChars n)]

/-- Modelled from the spec: `MakeExpireCmd(key, expireAt)` builds the
separate `PEXPIREAT key ms` frame recording an expiration. -/
def makeExpireCmd (key : List Char) (ms : Nat) : List Nat :=
  respMultiBulk [strBytes "PEXPIREAT".data, strBytes key, strBytes (itoaChars ms)]

/-- The AOF `Handler` state the rewrite protocol touches: the live file's
bytes, an identifier for the currently open file handle (bumped when
`FinishRewrite` reopens the renamed file) and `currentDB`. -/
structure Handler where
  liveBytes : List Nat
  aofFile : Nat
  currentDB : Nat
deriving DecidableEq

/-- Record `RewriteCtx`: the temp file's contents, the snapshot `fileSize` and
the snapshot `dbIdx`. -/
structure RewriteCtx where
  tmpContent : List Nat
  fileSize : Nat
  dbIdx : Nat
deriving DecidableEq

/-- Phase `StartRewrite` on the success path: fsync (no content change),
snapshot the live file's size and `currentDB`, create an empty temp
file.  Its own failure modes (fsync, temp-file creation) abort before a
rewrite context exists and are outside the claims below. -/
def StartRewrite (h : Handler) : RewriteCtx :=
  { tmpContent := [], fileSize := h.liveBytes.length, dbIdx := h.currentDB }

/-- One scratch-DB entry as `ForEach` yields it: key, entity, optional
expiration (milliseconds).  The entity type is abstract. -/
def Entry (ε : Type) := List Char × ε × Option Nat

/-- The body of the `ForEach` visitor in `DoRewrite`: write
`EntityToCmd(key, entity)` when it is non-nil, then — unconditionally on
that first test — write the expire command when an expiration is
present. -/
def writeEntityEntry {ε : Type} (e2c : List Char → ε → Option (List Nat))
    (buf : List Nat) (ent : Entry ε) : List Nat :=
  let buf1 := match e2c ent.1 ent.2.1 with
    | some b => buf ++ b
    | none => buf
  match ent.2.2 with
  | some ms => buf1 ++ makeExpireCmd ent.1 ms
  | none => buf1

/-- The loop of `DoRewrite` over logical DB indices: `rem` databases remain,
`i` is the next index.  Each iteration writes `SELECT i` (the only write
whose error is checked — `selFail i` injects that failure) and then the
dump of DB `i`. -/
def doRewriteGo {ε : Type} (snap : Nat → List (Entry ε))
    (e2c : List Char → ε → Option (List Nat)) (selFail : Nat → Bool) :
    Nat → Nat → List Nat → Option (List Nat)
  | 0, _, buf => some buf
  | rem + 1, i, buf =>
    if selFail i then none
    else doRewriteGo snap e2c selFail rem (i + 1)
      ((snap i).foldl (writeEntityEntry e2c) (buf ++ selectFrame i))

/-- Phase `DoRewrite` over `databases` logical DBs, starting from an empty temp
file; `none` is the error return. -/
def DoRewrite {ε : Type} (databases : Nat) (snap : Nat → List (Entry ε))
    (e2c : List Char → ε → Option (List Nat)) (selFail : Nat → Bool) :
    Option (List Nat) :=
  doRewriteGo snap e2c selFail databases 0 []

/-- The bytes one scratch-DB entry contributes to the rewritten file. -/
def entryBytes {ε : Type} (e2c : List Char → ε → Option (List Nat))
    (ent : Entry ε) : List Nat :=
  (match e2c ent.1 ent.2.1 with
    | some b => b
    | none => []) ++
  (match ent.2.2 with
    | some ms => makeExpireCmd ent.1 ms
    | none => [])

/-- The bytes one logical DB contributes: its `SELECT` frame followed by
every entry's bytes. -/
def dbDump {ε : Type} (snap : Nat → List (Entry ε))
    (e2c : List Char → ε → Option (List Nat)) (i : Nat) : List Nat :=
  selectFrame i ++ ((snap i).map (entryBytes e2c)).flatten

/-- Error-injection points of `FinishRewrite`: opening the live AOF,
seeking to `fileSize`, writing the `SELECT dbIdx` frame, copying the
tail. -/
structure FinishErrs where
  openFail : Bool
  seekFail : Bool
  writeFail : Bool
  copyFail : Bool
deriving DecidableEq

/-- No injected failure. -/
def noFinishErrs : FinishErrs :=
  { openFail := false, seekFail := false, writeFail := false, copyFail := false }

/-- Phase `FinishRewrite`, step by step: open the live AOF read-only; seek to
`ctx.fileSize`; append `SELECT ctx.dbIdx` to the temp file; copy the live
file's bytes from `fileSize` to EOF into the temp file; then close the
live handle, rename the temp file over the live path, reopen it (a fresh
handle) and append `SELECT currentDB` through the new handle.  Every
checked error returns with the handler untouched; the `Bool` of the
result records whether the rename installed the temp file. -/
def FinishRewrite (h : Handler) (ctx : RewriteCtx) (e : FinishErrs) :
    Handler × Bool :=
  if e.openFail then (h, false)
  else if e.seekFail then (h, false)
  else if e.writeFail then (h, false)
  else
    let tmp1 := ctx.tmpContent ++ selectFrame ctx.dbIdx
    if e.copyFail then (h, false)
    else
      let tmp2 := tmp1 ++ h.liveBytes.drop ctx.fileSize
      let h1 : Handler :=
        { liveBytes := tmp2 ++ selectFrame h.currentDB,
          aofFile := h.aofFile + 1,
          currentDB := h.currentDB }
      (h1, true)

/-- The visitor body with its two *unchecked* writes fallible: the
source discards their errors (`_, _ = tmpFile.Write(...)` at the
recreate-command and expire-command writes), so a failure appends
nothing and the loop simply continues.  `cmdFail key` / `expFail key`
inject a failure of the respective write for that key. -/
def writeEntityEntryF {ε : Type} (e2c : List Char → ε → Option (List Nat))
    (cmdFail expFail : List Char → Bool)
    (buf : List Nat) (ent : Entry ε) : List Nat :=
  let buf1 := match e2c ent.1 ent.2.1 with
    | some b => if cmdFail ent.1 then buf else buf ++ b
    | none => buf
  match ent.2.2 with
  | some ms => if expFail ent.1 then buf1 else buf1 ++ makeExpireCmd ent.1 ms
  | none => buf1

/-- The `DoRewrite` loop with every write's failure injectable: only the
`SELECT` write's error (`selFail`) is checked and aborts; entity and
expire write failures (`cmdFail`, `expFail`) are discarded. -/
def doRewriteGoF {ε : Type} (snap : Nat → List (Entry ε))
    (e2c : List Char → ε → Option (List Nat)) (selFail : Nat → Bool)
    (cmdFail expFail : List Char → Bool) :
    Nat → Nat → List Nat → Option (List Nat)
  | 0, _, buf => some buf
  | rem + 1, i, buf =>
    if selFail i then none
    else doRewriteGoF snap e2c selFail cmdFail expFail rem (i + 1)
      ((snap i).foldl (writeEntityEntryF e2c cmdFail expFail)
        (buf ++ selectFrame i))

/-- Phase `DoRewrite` with all failure-injection points exposed. -/
def DoRewriteF {ε : Type} (databases : Nat) (snap : Nat → List (Entry ε))
    (e2c : List Char → ε → Option (List Nat)) (selFail : Nat → Bool)
    (cmdFail expFail : List Char → Bool) : Option (List Nat) :=
  doRewriteGoF snap e2c selFail cmdFail expFail databases 0 []

/-- Driver `Rewrite`: start, dump, finish; a checked `DoRewrite` error
aborts before `FinishRewrite`, while discarded entity/expire write
failures do not. -/
def Rewrite {ε : Type} (h : Handler) (databases : Nat)
    (snap : Nat → List (Entry ε)) (e2c : List Char → ε → Option (List Nat))
    (selFail : Nat → Bool) (cmdFail expFail : List Char → Bool)
    (fe : FinishErrs) : Handler × Bool :=
  let ctx := StartRewrite h
  match DoRewriteF databases snap e2c selFail cmdFail expFail with
  | none => (h, false)
  | some out => FinishRewrite h { ctx with tmpContent := out } fe

/-! ## TCC distributed transaction participant (`cluster` package)

The local database behind `cluster.db` is external to the excerpt; its
operations (`ExecWithLock`, `RWLocks`, `RWUnLocks`, `GetUndoLogs`,
`GetRelatedKeys`) are parameters over an abstract state type `σ`, so the
theorems below hold for every database implementation.  Commands are
lists of strings; timewheel callbacks (the 3 s abort timer, the 6 s
cleanup) are scheduled but have not yet fired within the modelled call,
exactly as in the sequential semantics of one handler invocation. -/

/-- RESP replies as far as the participant's control flow inspects them:
`protocol.IsErrorReply` distinguishes the `err` case; everything else is
passed through opaquely. -/
inductive Reply where
  | ok : Reply
  | err (msg : String) : Reply
  | int (n : Int) : Reply
  | custom (tag : Nat) : Reply
deriving DecidableEq

/-- Model of `protocol.IsErrorReply`. -/
def isErrorReply : Reply → Bool
  | .err _ => true
  | _ => false

def createdStatus : Nat := 0

def preparedStatus : Nat := 1

def committedStatus : Nat := 2

def rolledBackStatus : Nat := 3

/-- The per-participant `Transaction` record. -/
structure Txn where
  id : String
  cmdLine : List String
  dbIndex : Nat
  writeKeys : List String
  readKeys : List String
  keysLocked : Bool
  undoLog : List (List String)
  status : Nat
deriving DecidableEq

/-- The external database contract consumed by the transaction code. -/
structure DBOps (σ : Type) where
  execWithLock : σ → List String → σ × Reply
  rwLocks : σ → Nat → List String → List String → σ
  rwUnLocks : σ → Nat → List String → List String → σ
  getUndoLogs : σ → Nat → List String → List (List String)
  getRelatedKeys : List String → List String × List String

/-- Participant-visible cluster state: the `transactions` table and the
local database.  Go stores `*Transaction` pointers; mutation through the
pointer is modelled by writing the updated record back to the table. -/
structure ClusterSt (σ : Type) where
  txTable : List (String × Txn)
  db : σ

/-- Model of `transactions.Get`. -/
def tableGet (t : List (String × Txn)) (id : String) : Option Txn :=
  match t with
  | [] => none
  | (k, v) :: rest => if k = id then some v else tableGet rest id

/-- Model of `transactions.Put` (overwrite by shadowing). -/
def tablePut (t : List (String × Txn)) (id : String) (tx : Txn) :
    List (String × Txn) :=
  (id, tx) :: t

/-- Method `Transaction.lockKeys`: reentrant via the `keysLocked` flag. -/
def lockKeys {σ : Type} (ops : DBOps σ) (tx : Txn) (db : σ) : Txn × σ :=
  if tx.keysLocked then (tx, db)
  else ({ tx with keysLocked := true },
        ops.rwLocks db tx.dbIndex tx.writeKeys tx.readKeys)

/-- Method `Transaction.unLockKeys`. -/
def unLockKeys {σ : Type} (ops : DBOps σ) (tx : Txn) (db : σ) : Txn × σ :=
  if tx.keysLocked then
    ({ tx with keysLocked := false },
     ops.rwUnLocks db tx.dbIndex tx.writeKeys tx.readKeys)
  else (tx, db)

/-- Method `Transaction.rollbackWithLock`, exactly as written: read `tx.status`
into `curStatus`, return the "status changed" error if `tx.status`
differs from that copy, return `nil` if already rolled back, otherwise
lock the keys, execute every undo-log command, unlock and mark
`RolledBack`.  Result: updated record, updated database, error. -/
def rollbackWithLock {σ : Type} (ops : DBOps σ) (tx : Txn) (db : σ) :
    Txn × σ × Option String :=
  let curStatus := tx.status
  if tx.status ≠ curStatus then
    (tx, db, some ("tx " ++ tx.id ++ " status changed"))
  else if tx.status = rolledBackStatus then (tx, db, none)
  else
    let p := lockKeys ops tx db
    let db2 := p.1.undoLog.foldl (fun d c => (ops.execWithLock d c).1) p.2
    let q := unLockKeys ops p.1 db2
    ({ q.1 with status := rolledBackStatus }, q.2, none)

/-- Handler `execRollback`: argument check, integer 0 for an unknown txID,
otherwise roll the found transaction back under its mutex and answer
integer 1 (the cleanup is scheduled on the timewheel, so the record is
still in the table when the call returns). -/
def execRollback {σ : Type} (ops : DBOps σ) (st : ClusterSt σ)
    (cmdLine : List String) : ClusterSt σ × Reply :=
  if cmdLine.length ≠ 2 then
    (st, Reply.err "ERR wrong number of arguments for rollback command")
  else
    match tableGet st.txTable (cmdLine.getD 1 "") with
    | none => (st, Reply.int 0)
    | some tx =>
      let r := rollbackWithLock ops tx st.db
      match r.2.2 with
      | some msg =>
        ({ txTable := tablePut st.txTable tx.id r.1, db := r.2.1 },
         Reply.err msg)
      | none =>
        ({ txTable := tablePut st.txTable tx.id r.1, db := r.2.1 },
         Reply.int 1)

/-- Handler `execCommit`: argument check, integer 0 for an unknown txID; for a
found record — with no inspection of `tx.status` — execute the
transaction's command via `ExecWithLock`; on an error reply roll back
locally and answer a composite error (its formatted text abstracted to a
fixed string), otherwise unlock the keys, mark `Committed` and pass the
command's reply through. -/
def execCommit {σ : Type} (ops : DBOps σ) (st : ClusterSt σ)
    (cmdLine : List String) : ClusterSt σ × Reply :=
  if cmdLine.length ≠ 2 then
    (st, Reply.err "ERR wrong number of arguments for commit command")
  else
    match tableGet st.txTable (cmdLine.getD 1 "") with
    | none => (st, Reply.int 0)
    | some tx =>
      let er := ops.execWithLock st.db tx.cmdLine
      if isErrorReply er.2 then
        let r := rollbackWithLock ops tx er.1
        ({ txTable := tablePut st.txTable tx.id r.1, db := r.2.1 },
         Reply.err "err occurs when rollback")
      else
        let q := unLockKeys ops tx er.1
        ({ txTable := tablePut st.txTable tx.id { q.1 with status := committedStatus },
           db := q.2 },
         er.2)

/-- Constructor `NewTransaction`. -/
def NewTransaction (id : String) (cmdLine : List String) (dbIndex : Nat) : Txn :=
  { id := id, cmdLine := cmdLine, dbIndex := dbIndex, writeKeys := [],
    readKeys := [], keysLocked := false, undoLog := [], status := createdStatus }

/-- Method `Transaction.prepare`: derive the related key sets, lock them, build
the undo log, mark `Prepared` and schedule the 3 s abort timer (which has
not fired at return).  The function returns `nil` on every path. -/
def prepare {σ : Type} (ops : DBOps σ) (tx : Txn) (db : σ) :
    Txn × σ × Option String :=
  let keys := ops.getRelatedKeys tx.cmdLine
  let tx1 := { tx with writeKeys := keys.1, readKeys := keys.2 }
  let p := lockKeys ops tx1 db
  let tx2 := { p.1 with
    undoLog := ops.getUndoLogs p.2 tx.dbIndex tx.cmdLine,
    status := preparedStatus }
  (tx2, p.2, none)

/-- Model of `strings.ToLower` on the ASCII range (command names are ASCII),
written structurally so it evaluates. -/
def toLowerChar (c : Char) : Char :=
  if 'A' ≤ c ∧ c ≤ 'Z' then Char.ofNat (c.toNat + 32) else c

/-- Model of `strings.ToLower`. -/
def strToLower (s : String) : String := ⟨s.data.map toLowerChar⟩

/-- Modelled from the spec: a per-command prepare hook (e.g. the MSETNX
precondition) inspects the database and votes with a reply; the
registered hooks form a name-keyed registry. -/
def hookLookup {σ : Type} (hooks : List (String × (σ → List String → Reply)))
    (name : String) : Option (σ → List String → Reply) :=
  match hooks with
  | [] => none
  | (k, f) :: rest => if k = name then some f else hookLookup rest name

/-- Handler `execPrepare`: argument check; create the transaction record, store
it in the table, run `prepare` (record written back through the shared
pointer), surface a prepare error as an error reply; otherwise run the
registered per-command hook, if any, and return its reply, else `+OK`. -/
def execPrepare {σ : Type} (ops : DBOps σ)
    (hooks : List (String × (σ → List String → Reply)))
    (st : ClusterSt σ) (dbIndex : Nat) (cmdLine : List String) :
    ClusterSt σ × Reply :=
  if cmdLine.length < 3 then
    (st, Reply.err "ERR wrong number of arguments for prepare command")
  else
    let txID := cmdLine.getD 1 ""
    let cmdName := strToLower (cmdLine.getD 2 "")
    let tx := NewTransaction txID (cmdLine.drop 2) dbIndex
    let table1 := tablePut st.txTable txID tx
    let r := prepare ops tx st.db
    let st1 : ClusterSt σ := { txTable := tablePut table1 txID r.1, db := r.2.1 }
    match r.2.2 with
    | some msg => (st1, Reply.err msg)
    | none =>
      match hookLookup hooks cmdName with
      | some hook => (st1, hook st1.db (cmdLine.drop 2))
      | none => (st1, Reply.ok)

/-! ### Concrete fixtures used by witnesses and counterexamples -/

/-- A counting database: every executed command bumps a counter, locks
are no-ops. -/
def countOps : DBOps Nat :=
  { execWithLock := fun d _ => (d + 1, Reply.ok),
    rwLocks := fun d _ _ _ => d,
    rwUnLocks := fun d _ _ _ => d,
    getUndoLogs := fun _ _ _ => [],
    getRelatedKeys := fun _ => ([], []) }

/-- A transaction already rolled back by the abort timer: keys unlocked,
status `RolledBack`, record still in the table. -/
def rbTx : Txn :=
  { id := "7", cmdLine := ["SET", "k", "v"], dbIndex := 0,
    writeKeys := ["k"], readKeys := [], keysLocked := false,
    undoLog := [["SET", "k", "old"]], status := rolledBackStatus }

/-- A cluster state still holding the rolled-back record. -/
def st0 : ClusterSt Nat := { txTable := [("7", rbTx)], db := 0 }

/-- A three-byte live AOF with handle 0. -/
def h0 : Handler := { liveBytes := [1, 2, 3], aofFile := 0, currentDB := 0 }

/-- An error schedule where the open of the live AOF fails. -/
def feOpen : FinishErrs :=
  { openFail := true, seekFail := false, writeFail := false, copyFail := false }

/-- A hook registry holding an MSET prepare hook that always votes
abort. -/
def hooks0 : List (String × (Nat → List String → Reply)) :=
  [("mset", fun _ _ => Reply.err "key exists")]

/-! ## Theorems -/

/-- C8: the "status changed" branch of `rollbackWithLock` is unreachable
for every transaction state: the function compares `tx.status` against a
copy of itself taken immediately before, so the comparison is false and
`rollbackWithLock` always returns a `nil` error. -/
theorem c8_status_check_unreachable {σ : Type} (ops : DBOps σ) (tx : Txn)
    (db : σ) : (rollbackWithLock ops tx db).2.2 = none := by
  unfold rollbackWithLock
  simp only [ne_eq, not_true_eq_false, if_false]
  split <;> simp

/-- C2: a successful `FinishRewrite` (no injected I/O failure) leaves the
live AOF holding exactly the temp file's rewritten content, then one
`SELECT dbIdx` frame, then the old live file's bytes from offset
`fileSize` to its end, then one `SELECT currentDB` frame appended through
the freshly reopened handle; the rename did install the temp file. -/
theorem c2_finishRewrite_splice (h : Handler) (ctx : RewriteCtx) :
    (FinishRewrite h ctx noFinishErrs).1.liveBytes =
      ctx.tmpContent ++ selectFrame ctx.dbIdx ++
        h.liveBytes.drop ctx.fileSize ++ selectFrame h.currentDB ∧
    (FinishRewrite h ctx noFinishErrs).2 = true := by
  simp [FinishRewrite, noFinishErrs, List.append_assoc]

/-- C4 (code bug): on the four-byte key built from the characters
close-brace, open-brace, `a`, close-brace, the source's
`getPartitionKey` slices `key[2:0]` and panics (`none`), while the
extraction described by the spec is total and returns `a`: the code
takes the first `}` of the whole key, not the first `}` after the first
`{`. -/
theorem c4_partitionKey_panics :
    getPartitionKey ['}', '{', 'a', '}'] = none ∧
    specPartitionKey ['}', '{', 'a', '}'] = ['a'] := by decide

/-- C7: rollback is idempotent — when the found transaction is already
`RolledBack`, `execRollback` answers integer 1, executes no undo-log
command (the database is untouched), and the record, its status and its
lock flag are unchanged (the table maps every id exactly as before). -/
theorem c7_rollback_idempotent {σ : Type} (ops : DBOps σ)
    (st : ClusterSt σ) (txID : String) (tx : Txn)
    (hget : tableGet st.txTable txID = some tx)
    (hid : tx.id = txID)
    (hst : tx.status = rolledBackStatus) :
    (execRollback ops st ["rollback", txID]).2 = Reply.int 1 ∧
    (execRollback ops st ["rollback", txID]).1.db = st.db ∧
    ∀ id, tableGet (execRollback ops st ["rollback", txID]).1.txTable id =
      tableGet st.txTable id := by
  have hroll : rollbackWithLock ops tx st.db = (tx, st.db, none) := by
    unfold rollbackWithLock
    simp [hst]
  have hstep : execRollback ops st ["rollback", txID] =
      ({ txTable := tablePut st.txTable tx.id tx, db := st.db }, Reply.int 1) := by
    simp [execRollback, hget, hroll]
  refine ⟨by rw [hstep], by rw [hstep], ?_⟩
  intro id
  rw [hstep]
  show tableGet ((tx.id, tx) :: st.txTable) id = tableGet st.txTable id
  by_cases hcase : tx.id = id
  · have hidid : id = txID := by rw [← hcase, hid]
    simp only [tableGet, hidid, hget]
    split <;> rfl
  · simp only [tableGet, if_neg hcase]

/-- C7 witness: a concrete rolled-back transaction record. -/
theorem c7_witness :
    tableGet st0.txTable "7" = some rbTx ∧ rbTx.id = "7" ∧
    rbTx.status = rolledBackStatus ∧
    (execRollback countOps st0 ["rollback", "7"]).2 = Reply.int 1 :=
  ⟨by decide, by decide, by decide,
   (c7_rollback_idempotent countOps st0 "7" rbTx (by decide) (by decide)
      (by decide)).1⟩

/-- C1 counterexample: with the rolled-back record still in the table,
`execCommit` neither returns integer 0 nor leaves the database alone —
it executes the transaction's command (the counting database moves from
0 to 1). -/
theorem c1_counterexample :
    (execCommit countOps st0 ["commit", "7"]).2 ≠ Reply.int 0 ∧
    (execCommit countOps st0 ["commit", "7"]).1.db ≠ st0.db := by decide

/-- C1 amended: when a Commit finds the txID's record in the table —
even one already `RolledBack` — `execCommit` does not return 0: it
executes the transaction's command via `ExecWithLock` and, when that
reply is not an error, passes the reply through and marks the record
`Committed`. -/
theorem c1_commit_after_rollback_executes {σ : Type} (ops : DBOps σ)
    (st : ClusterSt σ) (txID : String) (tx : Txn)
    (hget : tableGet st.txTable txID = some tx)
    (_hst : tx.status = rolledBackStatus)
    (hok : isErrorReply (ops.execWithLock st.db tx.cmdLine).2 = false) :
    (execCommit ops st ["commit", txID]).2 =
      (ops.execWithLock st.db tx.cmdLine).2 ∧
    (execCommit ops st ["commit", txID]).1.db =
      (unLockKeys ops tx (ops.execWithLock st.db tx.cmdLine).1).2 ∧
    tableGet (execCommit ops st ["commit", txID]).1.txTable tx.id =
      some { (unLockKeys ops tx (ops.execWithLock st.db tx.cmdLine).1).1 with
             status := committedStatus } := by
  refine ⟨?_, ?_, ?_⟩ <;>
    simp [execCommit, hget, hok, tablePut, tableGet]

/-- C1 witness for the amended theorem, at the concrete fixture. -/
theorem c1_witness :
    tableGet st0.txTable "7" = some rbTx ∧
    rbTx.status = rolledBackStatus ∧
    isErrorReply (countOps.execWithLock st0.db rbTx.cmdLine).2 = false ∧
    (execCommit countOps st0 ["commit", "7"]).2 =
      (countOps.execWithLock st0.db rbTx.cmdLine).2 :=
  ⟨by decide, by decide, by decide,
   (c1_commit_after_rollback_executes countOps st0 "7" rbTx (by decide)
      (by decide) (by decide)).1⟩

/-- C10: when the per-command prepare hook rejects, `execPrepare`
returns the hook's reply unchanged while the local prepare stands: the
record is still in the table, `Prepared`, with its keys locked, and the
database keeps the lock effect of `prepare` (nothing is undone). -/
theorem c10_prepare_hook_rejection {σ : Type} (ops : DBOps σ)
    (hooks : List (String × (σ → List String → Reply)))
    (st : ClusterSt σ) (dbIndex : Nat) (cmdLine : List String)
    (hook : σ → List String → Reply)
    (hlen : 3 ≤ cmdLine.length)
    (hhook : hookLookup hooks (strToLower (cmdLine.getD 2 "")) = some hook)
    (herr : isErrorReply
      (hook (prepare ops (NewTransaction (cmdLine.getD 1 "")
        (cmdLine.drop 2) dbIndex) st.db).2.1 (cmdLine.drop 2)) = true) :
    (execPrepare ops hooks st dbIndex cmdLine).2 =
      hook (prepare ops (NewTransaction (cmdLine.getD 1 "")
        (cmdLine.drop 2) dbIndex) st.db).2.1 (cmdLine.drop 2) ∧
    isErrorReply (execPrepare ops hooks st dbIndex cmdLine).2 = true ∧
    tableGet (execPrepare ops hooks st dbIndex cmdLine).1.txTable
        (cmdLine.getD 1 "") =
      some (prepare ops (NewTransaction (cmdLine.getD 1 "")
        (cmdLine.drop 2) dbIndex) st.db).1 ∧
    (prepare ops (NewTransaction (cmdLine.getD 1 "")
        (cmdLine.drop 2) dbIndex) st.db).1.status = preparedStatus ∧
    (prepare ops (NewTransaction (cmdLine.getD 1 "")
        (cmdLine.drop 2) dbIndex) st.db).1.keysLocked = true ∧
    (execPrepare ops hooks st dbIndex cmdLine).1.db =
      (prepare ops (NewTransaction (cmdLine.getD 1 "")
        (cmdLine.drop 2) dbIndex) st.db).2.1 := by
  have hnlt : ¬ cmdLine.length < 3 := not_lt.mpr hlen
  have hstep : execPrepare ops hooks st dbIndex cmdLine =
      ({ txTable := tablePut
            (tablePut st.txTable (cmdLine.getD 1 "")
              (NewTransaction (cmdLine.getD 1 "") (cmdLine.drop 2) dbIndex))
            (cmdLine.getD 1 "")
            (prepare ops (NewTransaction (cmdLine.getD 1 "")
              (cmdLine.drop 2) dbIndex) st.db).1,
          db := (prepare ops (NewTransaction (cmdLine.getD 1 "")
            (cmdLine.drop 2) dbIndex) st.db).2.1 },
        hook (prepare ops (NewTransaction (cmdLine.getD 1 "")
          (cmdLine.drop 2) dbIndex) st.db).2.1 (cmdLine.drop 2)) := by
    have hn : (prepare ops (NewTransaction (cmdLine.getD 1 "")
        (cmdLine.drop 2) dbIndex) st.db).2.2 = none := rfl
    unfold execPrepare
    rw [if_neg hnlt]
    simp only [hn, hhook]
  refine ⟨by rw [hstep], ?_, ?_, rfl, rfl, by rw [hstep]⟩
  · rw [hstep]
    exact herr
  · rw [hstep]
    simp [tablePut, tableGet]

/-- C10 witness at the concrete fixture. -/
theorem c10_witness :
    3 ≤ (["prepare", "9", "MSET", "a", "b"] : List String).length ∧
    hookLookup hooks0
        (strToLower ((["prepare", "9", "MSET", "a", "b"] : List String).getD 2 "")) =
      some (fun _ _ => Reply.err "key exists") ∧
    (execPrepare countOps hooks0 st0 0 ["prepare", "9", "MSET", "a", "b"]).2 =
      Reply.err "key exists" :=
  ⟨by decide, rfl,
   (c10_prepare_hook_rejection countOps hooks0 st0 0
      ["prepare", "9", "MSET", "a", "b"] (fun _ _ => Reply.err "key exists")
      (by decide) rfl (by decide)).1⟩

/-- Any injected failure makes `FinishRewrite` return with the handler
untouched and the temp file not installed. -/
theorem finishRewrite_fail (h : Handler) (ctx : RewriteCtx) (e : FinishErrs)
    (hfail : e.openFail = true ∨ e.seekFail = true ∨ e.writeFail = true ∨
      e.copyFail = true) :
    FinishRewrite h ctx e = (h, false) := by
  unfold FinishRewrite
  rcases hfail with hf | hf | hf | hf <;> simp [hf]

/-- With no injected failure the fallible visitor coincides with the
plain one: the fallible loop is the same code with error points
exposed. -/
theorem writeEntityEntryF_noFail {ε : Type}
    (e2c : List Char → ε → Option (List Nat)) (buf : List Nat)
    (ent : Entry ε) :
    writeEntityEntryF e2c (fun _ => false) (fun _ => false) buf ent =
      writeEntityEntry e2c buf ent := by
  unfold writeEntityEntryF writeEntityEntry
  cases e2c ent.1 ent.2.1 <;> cases ent.2.2 <;> simp

/-- A failing SELECT write at any visited index makes the dump loop
return the error, whatever the unchecked writes do. -/
theorem doRewriteGoF_fail {ε : Type} (snap : Nat → List (Entry ε))
    (e2c : List Char → ε → Option (List Nat)) (selFail : Nat → Bool)
    (cmdFail expFail : List Char → Bool) :
    ∀ (rem i : Nat) (buf : List Nat),
      (∃ k, i ≤ k ∧ k < i + rem ∧ selFail k = true) →
      doRewriteGoF snap e2c selFail cmdFail expFail rem i buf = none := by
  intro rem
  induction rem with
  | zero =>
    rintro i buf ⟨k, hk1, hk2, -⟩
    omega
  | succ n ih =>
    rintro i buf ⟨k, hk1, hk2, hk3⟩
    unfold doRewriteGoF
    by_cases hs : selFail i = true
    · simp [hs]
    · have hki : i + 1 ≤ k := by
        rcases Nat.lt_or_ge i k with hik | hik
        · omega
        · have : k = i := by omega
          rw [this] at hk3
          exact absurd hk3 hs
      simp only [hs, Bool.false_eq_true, if_false]
      exact ih (i + 1) _ ⟨k, hki, by omega, hk3⟩

/-- C3 counterexample: an I/O error does occur during `DoRewrite` — the
entity write for key `k` fails — yet the rewrite does *not* abort: the
error is discarded, `FinishRewrite` runs, the temp file is installed
over the live path and both the live bytes and the file handle
change. -/
theorem c3_counterexample :
    (Rewrite h0 1 (fun _ => ([(['k'], (), none)] : List (Entry Unit)))
        (fun _ _ => some [65]) (fun _ => false) (fun _ => true)
        (fun _ => false) noFinishErrs).2 = true ∧
    (Rewrite h0 1 (fun _ => ([(['k'], (), none)] : List (Entry Unit)))
        (fun _ _ => some [65]) (fun _ => false) (fun _ => true)
        (fun _ => false) noFinishErrs).1.liveBytes ≠ h0.liveBytes ∧
    (Rewrite h0 1 (fun _ => ([(['k'], (), none)] : List (Entry Unit)))
        (fun _ _ => some [65]) (fun _ => false) (fun _ => true)
        (fun _ => false) noFinishErrs).1.aofFile ≠ h0.aofFile := by decide

/-- C3 amended: every *checked* I/O error — the SELECT write in
`DoRewrite`; open, seek, write or copy in `FinishRewrite` — aborts the
rewrite with the live AOF bytes and the handler's open file handle
unchanged and the temp file never installed, whatever happens to the
unchecked entity/expire writes; those unchecked writes' failures are
silently discarded and do not abort. -/
theorem c3_checked_error_aborts {ε : Type} (h : Handler) (databases : Nat)
    (snap : Nat → List (Entry ε)) (e2c : List Char → ε → Option (List Nat))
    (selFail : Nat → Bool) (cmdFail expFail : List Char → Bool)
    (fe : FinishErrs)
    (hfail : (∃ i, i < databases ∧ selFail i = true) ∨
      fe.openFail = true ∨ fe.seekFail = true ∨ fe.writeFail = true ∨
      fe.copyFail = true) :
    Rewrite h databases snap e2c selFail cmdFail expFail fe = (h, false) := by
  rcases hfail with ⟨i, hlt, hsel⟩ | hfe
  · have hnone : DoRewriteF databases snap e2c selFail cmdFail expFail = none :=
      doRewriteGoF_fail snap e2c selFail cmdFail expFail databases 0 []
        ⟨i, Nat.zero_le i, by omega, hsel⟩
    unfold Rewrite
    rw [hnone]
  · simp only [Rewrite]
    cases hdo : DoRewriteF databases snap e2c selFail cmdFail expFail with
    | none => rfl
    | some out => exact finishRewrite_fail h _ fe hfe

/-- C3 witness: with a failing open in `FinishRewrite`, `Rewrite` leaves
the handler exactly as it was. -/
theorem c3_witness :
    feOpen.openFail = true ∧
    Rewrite h0 1 (fun _ => ([] : List (Entry Unit))) (fun _ _ => none)
      (fun _ => false) (fun _ => false) (fun _ => false) feOpen =
      (h0, false) :=
  ⟨rfl, c3_checked_error_aborts h0 1 _ _ _ _ _ feOpen (Or.inr (Or.inl rfl))⟩

/-- The visitor body appends exactly `entryBytes` for one entry. -/
theorem writeEntityEntry_eq {ε : Type} (e2c : List Char → ε → Option (List Nat))
    (buf : List Nat) (ent : Entry ε) :
    writeEntityEntry e2c buf ent = buf ++ entryBytes e2c ent := by
  unfold writeEntityEntry entryBytes
  cases e2c ent.1 ent.2.1 <;> cases ent.2.2 <;> simp

/-- Folding the visitor over a database appends every entry's bytes. -/
theorem foldl_writeEntityEntry {ε : Type}
    (e2c : List Char → ε → Option (List Nat)) :
    ∀ (l : List (Entry ε)) (buf : List Nat),
      l.foldl (writeEntityEntry e2c) buf =
        buf ++ (l.map (entryBytes e2c)).flatten := by
  intro l
  induction l with
  | nil => intro buf; simp
  | cons a t ih =>
    intro buf
    simp [List.foldl_cons, writeEntityEntry_eq, ih, List.append_assoc]

/-- The error-free dump loop emits each remaining database's dump in
order. -/
theorem doRewriteGo_ok {ε : Type} (snap : Nat → List (Entry ε))
    (e2c : List Char → ε → Option (List Nat)) :
    ∀ (rem i : Nat) (buf : List Nat),
      doRewriteGo snap e2c (fun _ => false) rem i buf =
        some (buf ++ ((List.range' i rem).map (dbDump snap e2c)).flatten) := by
  intro rem
  induction rem with
  | zero => intro i buf; simp [doRewriteGo]
  | succ n ih =>
    intro i buf
    unfold doRewriteGo
    simp only [Bool.false_eq_true, if_false]
    rw [foldl_writeEntityEntry, ih]
    simp [List.range', dbDump, List.append_assoc]

/-- C6 counterexample: a key whose entity has no canonical command
(`EntityToCmd` nil) but which carries an expiration is *not* skipped
entirely — `DoRewrite` still emits its `PEXPIREAT` frame after the
`SELECT 0` frame. -/
theorem c6_counterexample :
    DoRewrite 1 (fun _ => ([(['k'], (), some 5)] : List (Entry Unit)))
        (fun _ _ => (none : Option (List Nat))) (fun _ => false) =
      some (selectFrame 0 ++ makeExpireCmd ['k'] 5) ∧
    selectFrame 0 ++ makeExpireCmd ['k'] 5 ≠ selectFrame 0 := by decide

/-- C6 amended: an error-free `DoRewrite` emits, for each DB index
`i ∈ [0, databases)`, one `SELECT i` frame and then, per entry, the
canonical recreate command when `EntityToCmd` yields one, followed by
the `PEXPIREAT` command when an expiration is present — the expiration
command is emitted even when the recreate command is absent. -/
theorem c6_rewrite_emission {ε : Type} (databases : Nat)
    (snap : Nat → List (Entry ε)) (e2c : List Char → ε → Option (List Nat)) :
    DoRewrite databases snap e2c (fun _ => false) =
      some (((List.range databases).map (dbDump snap e2c)).flatten) := by
  unfold DoRewrite
  rw [doRewriteGo_ok, List.range_eq_range']
  simp

/-- Unfolding `strIndex` over a cons cell. -/
theorem strIndex_cons (a : Char) (t : List Char) (c : Char) :
    strIndex (a :: t) c =
      if a = c then some 0 else (strIndex t c).map (· + 1) := by
  simp only [strIndex, List.findIdx?_cons, decide_eq_true_eq]
  split
  · rfl
  · exact List.findIdx?_succ

/-- A found index is within the string. -/
theorem strIndex_lt_length (s : List Char) (c : Char) :
    ∀ i, strIndex s c = some i → i < s.length := by
  induction s with
  | nil => intro i h; simp [strIndex] at h
  | cons a t ih =>
    intro i h
    rw [strIndex_cons] at h
    by_cases ha : a = c
    · rw [if_pos ha] at h
      cases h
      simp
    · rw [if_neg ha] at h
      cases hm : strIndex t c with
      | none => rw [hm] at h; simp at h
      | some j =>
        rw [hm] at h
        simp at h
        have := ih j hm
        simp only [List.length_cons]
        omega

/-- The first `}` of `tag ++ "}" ++ [c]` sits at the first `}` of `tag`
when `tag` has one, else right after `tag` — never inside the last
character, so the position is independent of `c`. -/
theorem strIndex_close (tag : List Char) (c : Char) :
    strIndex (tag ++ '}' :: [c]) '}' =
      some ((strIndex tag '}').getD tag.length) := by
  induction tag with
  | nil => rfl
  | cons a t ih =>
    rw [List.cons_append, strIndex_cons, strIndex_cons]
    by_cases ha : a = '}'
    · simp [ha]
    · rw [if_neg ha, if_neg ha, ih]
      cases hm : strIndex t '}' <;> simp [hm]

/-- Position bound for the combined index. -/
theorem strIndex_getD_le (tag : List Char) :
    (strIndex tag '}').getD tag.length ≤ tag.length := by
  cases hm : strIndex tag '}' with
  | none => simp
  | some p =>
    simp only [Option.getD_some]
    exact le_of_lt (strIndex_lt_length tag '}' p hm)

/-- The combined index is positive when the tag is non-empty and does
not start with `}`. -/
theorem strIndex_getD_pos (tag : List Char) (hne : tag ≠ [])
    (hhd : tag.head? ≠ some '}') :
    1 ≤ (strIndex tag '}').getD tag.length := by
  cases tag with
  | nil => exact absurd rfl hne
  | cons a t =>
    have ha : a ≠ '}' := by
      intro hcontra
      exact hhd (by simp [hcontra])
    rw [strIndex_cons, if_neg ha]
    cases hm : strIndex t '}' <;> simp

/-- On a key of the form `{tag}c` with `tag` non-empty and not starting
with `}`, the source's `getPartitionKey` succeeds and returns a prefix
of `tag` that does not depend on `c`. -/
theorem getPartitionKey_tagged (tag : List Char) (c : Char)
    (hne : tag ≠ []) (hhd : tag.head? ≠ some '}') :
    getPartitionKey ('{' :: (tag ++ '}' :: [c])) =
      some (tag.take ((strIndex tag '}').getD tag.length)) := by
  have hj1 : 1 ≤ (strIndex tag '}').getD tag.length :=
    strIndex_getD_pos tag hne hhd
  have hjle : (strIndex tag '}').getD tag.length ≤ tag.length :=
    strIndex_getD_le tag
  have hbeg : strIndex ('{' :: (tag ++ '}' :: [c])) '{' = some 0 := by
    rw [strIndex_cons, if_pos rfl]
  have hend : strIndex ('{' :: (tag ++ '}' :: [c])) '}' =
      some ((strIndex tag '}').getD tag.length + 1) := by
    rw [strIndex_cons, if_neg (by decide), strIndex_close]
    rfl
  unfold getPartitionKey
  rw [hbeg, hend]
  dsimp only
  rw [if_neg (by omega)]
  unfold goSlice
  rw [if_pos ⟨by omega, by simp only [List.length_cons, List.length_append]; simp; omega⟩]
  simp only [List.drop_succ_cons, List.drop_zero, Nat.add_sub_cancel]
  rw [List.take_append_eq_append_take, Nat.sub_eq_zero_of_le hjle]
  simp

/-- C5 amended: for every ring and every tag that is non-empty and does
not start with `}`, `PickNode` sends `{tag}x` and `{tag}y` to the same
node (the partition key depends only on the tag). -/
theorem c5_hashtag_colocate (m : HMap) (tag : List Char) (x y : Char)
    (hne : tag ≠ []) (hhd : tag.head? ≠ some '}') :
    PickNode m ('{' :: (tag ++ '}' :: [x])) =
      PickNode m ('{' :: (tag ++ '}' :: [y])) := by
  unfold PickNode
  rw [getPartitionKey_tagged tag x hne hhd, getPartitionKey_tagged tag y hne hhd]

/-- C5 counterexample: on a non-empty two-node ring, the empty tag
breaks the claim — `{}x` and `{}y` have adjacent braces, fall back to
the full key and land on different nodes. -/
theorem c5_counterexample :
    ringXY.keys ≠ [] ∧
    PickNode ringXY ['{', '}', 'x'] ≠ PickNode ringXY ['{', '}', 'y'] := by
  decide

/-- C5 witness for the amended theorem at `tag = "t"` on the concrete
ring. -/
theorem c5_witness :
    (['t'] : List Char) ≠ [] ∧ (['t'] : List Char).head? ≠ some '}' ∧
    PickNode ringXY ['{', 't', '}', 'x'] = PickNode ringXY ['{', 't', '}', 'y'] :=
  ⟨by decide, by decide,
   c5_hashtag_colocate ringXY ['t'] 'x' 'y' (by decide) (by decide)⟩

/-- C9 counterexample: re-adding the same address doubles its virtual
nodes, so `|sortedHashes|` exceeds `replicas × (distinct physical
nodes)` (here 2 ≠ 1 × 1). -/
theorem c9_counterexample :
    (AddNode (AddNode (NewMap 1 zeroHash) [['A']]) [['A']]).keys.length ≠
      1 * ([['A'], ['A']] : List (List Char)).dedup.length := by decide

/-- The inner virtual-node loop: replicas and hash function are
untouched, the ring grows by one position per iteration, and the
positions-are-mapped invariant is preserved. -/
theorem addVirtualNode_foldl (addr : List Char) :
    ∀ (l : List Nat) (m : HMap),
      (l.foldl (addVirtualNode addr) m).replicas = m.replicas ∧
      (l.foldl (addVirtualNode addr) m).keys.length =
        m.keys.length + l.length ∧
      (ringKeysMapped m → ringKeysMapped (l.foldl (addVirtualNode addr) m)) := by
  intro l
  induction l with
  | nil => intro m; exact ⟨rfl, by simp, fun hm => hm⟩
  | cons i t ih =>
    intro m
    rw [List.foldl_cons]
    obtain ⟨h1, h2, h3⟩ := ih (addVirtualNode addr m i)
    refine ⟨by rw [h1]; rfl, ?_, ?_⟩
    · rw [h2]
      have hlen : (addVirtualNode addr m i).keys.length = m.keys.length + 1 := by
        simp [addVirtualNode]
      simp only [List.length_cons]
      omega
    · intro hm
      apply h3
      intro h hmem
      simp only [addVirtualNode, List.mem_append, List.mem_singleton] at hmem
      rcases hmem with hmem | hmem
      · obtain ⟨v, hv⟩ := hm h hmem
        exact ⟨v, List.mem_cons_of_mem _ hv⟩
      · exact ⟨addr, by rw [hmem]; exact List.mem_cons_self _ _⟩

/-- One `addOneNode` call: the empty address contributes nothing, any
other address contributes `replicas` positions; the invariant is
preserved. -/
theorem addOneNode_props (m : HMap) (addr : List Char) :
    (addOneNode m addr).replicas = m.replicas ∧
    (addOneNode m addr).keys.length =
      m.keys.length + m.replicas * (if addr = [] then 0 else 1) ∧
    (ringKeysMapped m → ringKeysMapped (addOneNode m addr)) := by
  unfold addOneNode
  by_cases ha : addr = []
  · simp [ha]
  · rw [if_neg ha]
    obtain ⟨h1, h2, h3⟩ := addVirtualNode_foldl addr (List.range m.replicas) m
    refine ⟨h1, ?_, h3⟩
    rw [h2, List.length_range, if_neg ha]
    ring

/-- Lemma: `nonEmptyAddrCount` is additive over list concatenation. -/
theorem nonEmptyAddrCount_append (l1 l2 : List (List Char)) :
    nonEmptyAddrCount (l1 ++ l2) =
      nonEmptyAddrCount l1 + nonEmptyAddrCount l2 := by
  induction l1 with
  | nil => simp [nonEmptyAddrCount]
  | cons a t ih =>
    show (if a = [] then 0 else 1) + nonEmptyAddrCount (t ++ l2) =
      (if a = [] then 0 else 1) + nonEmptyAddrCount t + nonEmptyAddrCount l2
    rw [ih]
    omega

/-- The outer loop of one `AddNode` call over its address arguments. -/
theorem addOneNode_foldl :
    ∀ (addrs : List (List Char)) (m : HMap),
      (addrs.foldl addOneNode m).replicas = m.replicas ∧
      (addrs.foldl addOneNode m).keys.length =
        m.keys.length + m.replicas * nonEmptyAddrCount addrs ∧
      (ringKeysMapped m → ringKeysMapped (addrs.foldl addOneNode m)) := by
  intro addrs
  induction addrs with
  | nil =>
    intro m
    exact ⟨rfl, by simp [nonEmptyAddrCount], fun hm => hm⟩
  | cons a t ih =>
    intro m
    rw [List.foldl_cons]
    obtain ⟨h1, h2, h3⟩ := ih (addOneNode m a)
    obtain ⟨g1, g2, g3⟩ := addOneNode_props m a
    refine ⟨by rw [h1, g1], ?_, fun hm => h3 (g3 hm)⟩
    rw [h2, g2, g1]
    show _ = m.keys.length +
      m.replicas * ((if a = [] then 0 else 1) + nonEmptyAddrCount t)
    by_cases ha : a = []
    · simp [ha]
    · simp only [ha, if_false]
      ring

/-- One `AddNode` call: it adds `replicas` positions per non-empty
address, keeps every position mapped, and leaves the ring sorted. -/
theorem AddNode_props (m : HMap) (addrs : List (List Char)) :
    (AddNode m addrs).replicas = m.replicas ∧
    (AddNode m addrs).keys.length =
      m.keys.length + m.replicas * nonEmptyAddrCount addrs ∧
    (ringKeysMapped m → ringKeysMapped (AddNode m addrs)) ∧
    List.Sorted (· ≤ ·) (AddNode m addrs).keys := by
  obtain ⟨h1, h2, h3⟩ := addOneNode_foldl addrs m
  refine ⟨h1, ?_, ?_, ?_⟩
  · show (List.insertionSort (· ≤ ·) (addrs.foldl addOneNode m).keys).length = _
    rw [(List.perm_insertionSort (· ≤ ·) _).length_eq, h2]
  · intro hm h hmem
    have hmem2 : h ∈ (addrs.foldl addOneNode m).keys :=
      (List.perm_insertionSort (· ≤ ·) _).mem_iff.mp hmem
    exact h3 hm h hmem2
  · exact List.sorted_insertionSort (· ≤ ·) _

/-- Any sequence of `AddNode` calls starting from a sorted, fully-mapped
ring preserves replicas, accumulates `replicas` positions per non-empty
address, keeps every position mapped, and ends sorted. -/
theorem AddNode_foldl_props :
    ∀ (calls : List (List (List Char))) (m : HMap),
      (calls.foldl AddNode m).replicas = m.replicas ∧
      (calls.foldl AddNode m).keys.length =
        m.keys.length + m.replicas * nonEmptyAddrCount calls.flatten ∧
      (ringKeysMapped m → ringKeysMapped (calls.foldl AddNode m)) ∧
      (List.Sorted (· ≤ ·) m.keys →
        List.Sorted (· ≤ ·) (calls.foldl AddNode m).keys) := by
  intro calls
  induction calls with
  | nil =>
    intro m
    exact ⟨rfl, by simp [nonEmptyAddrCount], fun hm => hm, fun hs => hs⟩
  | cons a t ih =>
    intro m
    rw [List.foldl_cons]
    obtain ⟨h1, h2, h3, h4⟩ := ih (AddNode m a)
    obtain ⟨g1, g2, g3, g4⟩ := AddNode_props m a
    refine ⟨by rw [h1, g1], ?_, fun hm => h3 (g3 hm), fun _ => h4 g4⟩
    rw [h2, g2, g1, List.flatten_cons, nonEmptyAddrCount_append]
    ring

/-- C9 amended: after any sequence of `AddNode` calls on a fresh ring,
`|sortedHashes| = replicas × (non-empty addresses added, with
multiplicity)` — not distinct nodes — the ring is sorted non-decreasing,
and every ring position is a key of the hash → node map. -/
theorem c9_ring_invariant (fn : List Char → Nat) (r : Nat)
    (calls : List (List (List Char))) :
    (calls.foldl AddNode (NewMap r fn)).keys.length =
      r * nonEmptyAddrCount calls.flatten ∧
    List.Sorted (· ≤ ·) (calls.foldl AddNode (NewMap r fn)).keys ∧
    ringKeysMapped (calls.foldl AddNode (NewMap r fn)) := by
  obtain ⟨h1, h2, h3, h4⟩ := AddNode_foldl_props calls (NewMap r fn)
  refine ⟨?_, h4 (by simp [NewMap]), h3 ?_⟩
  · rw [h2]
    simp [NewMap]
  · intro h hmem
    simp [NewMap] at hmem

end Gedis
